import Mathlib

/-!
# Shallow embedding of the implicit-Euler integration core

The repository ships only the unit tests of its implicit integrator
(`src/systems/analysis/test/implicit_euler_integrator_test.cc`); the
integrator implementation itself is not part of the sources.  Following the
design specification, every definition below is therefore modelled from the
spec (its doc comment says so and names the missing source), over exact
rational arithmetic and a scalar (one-dimensional) continuous state.  The
theorems at the end of the file settle the frozen claims against this model.
-/

namespace ImplicitEuler

/-- Modelled from the spec (§3, missing `implicit_integrator.h`): the closed
set of Jacobian computation strategies,
`jacobian_scheme ∈ {ForwardDifference, CentralDifference, Automatic}`. -/
inductive JacobianScheme where
  | forwardDifference
  | centralDifference
  | automatic
  deriving DecidableEq

/-- Modelled from the spec (§4.1, missing `implicit_integrator.h`): the scalar
type the integrator itself is instantiated with; the Automatic scheme must
fail when this is already a differentiable (dual-number) type. -/
inductive ScalarType where
  | double
  | autoDiffXd
  deriving DecidableEq

/-- Errors surfaced to the caller (spec §7): usage errors correspond to
`std::logic_error`, numerical/unsupported-operation errors to
`std::runtime_error`. -/
inductive DrakeError where
  | logicError (msg : String)
  | runtimeError (msg : String)
  deriving DecidableEq

/-- Modelled from the spec (§6, missing dynamical-system collaborator): a
scalar continuous-time system exposing `EvaluateTimeDerivative(time, state)`
as `F` and, for the Automatic scheme only, the exact partial `∂F/∂x` as
`dFdx`. -/
structure Sys where
  F : ℚ → ℚ → ℚ
  dFdx : ℚ → ℚ → ℚ

/-- Modelled from the spec (§6, missing context collaborator): time and the
(scalar) continuous state. -/
structure Context where
  time : ℚ
  state : ℚ
  deriving DecidableEq

/-- Modelled from the spec (§3, missing `integrator_base.h`): the
monotonically increasing statistics counters, reset only on explicit
request. -/
structure Stats where
  newton_iterations : ℕ
  derivative_evaluations : ℕ
  derivative_evaluations_for_jacobian : ℕ
  jacobian_evaluations : ℕ
  factorizations : ℕ
  substep_failures : ℕ
  shrinkages_from_substep_failures : ℕ
  shrinkages_from_error_control : ℕ
  steps_taken : ℕ
  deriving DecidableEq

/-- All statistics counters zero (the state right after a reset). -/
def Stats.zero : Stats := ⟨0, 0, 0, 0, 0, 0, 0, 0, 0⟩

/-- Componentwise addition of statistics deltas. -/
def Stats.add (s d : Stats) : Stats :=
  ⟨s.newton_iterations + d.newton_iterations,
   s.derivative_evaluations + d.derivative_evaluations,
   s.derivative_evaluations_for_jacobian + d.derivative_evaluations_for_jacobian,
   s.jacobian_evaluations + d.jacobian_evaluations,
   s.factorizations + d.factorizations,
   s.substep_failures + d.substep_failures,
   s.shrinkages_from_substep_failures + d.shrinkages_from_substep_failures,
   s.shrinkages_from_error_control + d.shrinkages_from_error_control,
   s.steps_taken + d.steps_taken⟩

/-- Componentwise order on statistics: every counter of `s` is at most the
corresponding counter of `t` (monotonic non-decrease). -/
def Stats.Le (s t : Stats) : Prop :=
  s.newton_iterations ≤ t.newton_iterations ∧
  s.derivative_evaluations ≤ t.derivative_evaluations ∧
  s.derivative_evaluations_for_jacobian ≤ t.derivative_evaluations_for_jacobian ∧
  s.jacobian_evaluations ≤ t.jacobian_evaluations ∧
  s.factorizations ≤ t.factorizations ∧
  s.substep_failures ≤ t.substep_failures ∧
  s.shrinkages_from_substep_failures ≤ t.shrinkages_from_substep_failures ∧
  s.shrinkages_from_error_control ≤ t.shrinkages_from_error_control ∧
  s.steps_taken ≤ t.steps_taken

instance (s t : Stats) : Decidable (Stats.Le s t) := by
  unfold Stats.Le; infer_instance

/-- Modelled from the spec (§3, missing `integrator_base.h` driver object):
the Driver owns the configuration, the working state, the statistics, the
last error estimate and an (optionally null) pointer to the context. -/
structure Integrator where
  sys : Sys
  scalar_type : ScalarType
  context : Option Context
  initialized : Bool
  target_accuracy : Option ℚ
  maximum_step_size : Option ℚ
  initial_step_size_target : Option ℚ
  requested_minimum_step_size : ℚ
  fixed_step_mode : Bool
  jacobian_scheme : JacobianScheme
  reuse : Bool
  throw_on_minimum_step_size_violation : Bool
  accuracy_in_use : ℚ
  last_error_estimate : ℚ
  last_estimate_implicit_order : Bool
  stats : Stats

/-- Modelled from the spec: the square root of IEEE double machine epsilon
(2⁻²⁶), the perturbation scale of the difference schemes (§4.1). -/
def sqrtEps : ℚ := 1 / 2 ^ 26

/-- Modelled from the spec: IEEE double machine epsilon (2⁻⁵²), used for the
floating-point-resolution part of the working minimum step size (§3). -/
def epsQ : ℚ := 1 / 2 ^ 52

/-- Modelled from the spec (§4.5): default accuracy used when no target
accuracy has been requested. -/
def kDefaultAccuracy : ℚ := 1 / 10

/-- Modelled from the spec (§3): the loosest accuracy the scheme can resolve;
`accuracy_in_use` is the requested target clamped to this floor. -/
def kLoosestAccuracy : ℚ := 1 / 2

/-- Modelled from the spec (§4.3): the fixed small Newton iteration budget
(on the order of 10). -/
def kMaxNewtonIterations : ℕ := 10

/-- Modelled from the spec (§4.3): the fixed fraction of the working
tolerance that the weighted update norm must fall below, for two consecutive
iterations, for the Newton process to be declared converged. -/
def kNewtonConvergenceFraction : ℚ := 1 / 100

/-- Modelled from the spec (§3, glossary): the working minimum step size,
derived from the requested minimum and the floating-point resolution of the
current time value. -/
def workingMinimumStepSize (I : Integrator) (t : ℚ) : ℚ :=
  max I.requested_minimum_step_size (epsQ * max 1 |t|)

/-- Modelled from the spec (§4.1): the perturbation of state component `x`,
`δ = max(|x|, 1)·√machine_epsilon`. -/
def perturbation (x : ℚ) : ℚ := max |x| 1 * sqrtEps

/-- Modelled from the spec (§4.1, missing `implicit_integrator.cc`): the
forward-difference Jacobian column `(F(x+δ) − F(x)) / δ`. -/
def forwardDiffJacobian (sys : Sys) (t x : ℚ) : ℚ :=
  (sys.F t (x + perturbation x) - sys.F t x) / perturbation x

/-- Modelled from the spec (§4.1, missing `implicit_integrator.cc`): the
central-difference Jacobian column `(F(x+δ) − F(x−δ)) / (2δ)`. -/
def centralDiffJacobian (sys : Sys) (t x : ℚ) : ℚ :=
  (sys.F t (x + perturbation x) - sys.F t (x - perturbation x)) / (2 * perturbation x)

/-- The descriptive message of the unsupported-operation error raised when an
automatically differentiated Jacobian is requested on an integrator whose own
scalar type is already differentiable. -/
def autoDiffJacobianErrorMessage : String :=
  "AutoDiff Jacobian not supported from AutoDiff integrator"

/-- Modelled from the spec (§4.1, missing `implicit_integrator.cc`):
`GetJacobian(time, state)` dispatched on the configured scheme; fails with a
descriptive unsupported-operation (runtime) error if the Automatic scheme is
selected while the integrator scalar type is already a dual-number type.
Returns the Jacobian together with the number of derivative-function
evaluations spent (one baseline plus n for forward differencing, 2n for
central differencing, here with n = 1). -/
def calcJacobian (I : Integrator) (t x : ℚ) : Except DrakeError (ℚ × ℕ) :=
  match I.jacobian_scheme with
  | .forwardDifference => .ok (forwardDiffJacobian I.sys t x, 2)
  | .centralDifference => .ok (centralDiffJacobian I.sys t x, 2)
  | .automatic =>
      match I.scalar_type with
      | .double => .ok (I.sys.dFdx t x, 1)
      | .autoDiffXd => .error (.runtimeError autoDiffJacobianErrorMessage)

/-- Modelled from the spec (§4.3, missing `implicit_euler_integrator.cc`):
the Newton–Raphson iteration solving the implicit-step equation.  The
residual is `f(x) = x − xₙ − h·F(tₙ+h, x)`; each update is
`x ← x − M⁻¹·f(x)` against the factored iteration matrix `M = 1 − h·J`
(scalar, so the linear solve is a division).  The weighted update norm
(update magnitude scaled by the state magnitude) must fall at or below a
fixed fraction of the working tolerance for two consecutive iterations to
declare convergence; a norm that increases for two consecutive iterations
abandons the process early as divergence; the iteration budget is the fuel.
Returns the converged state (or `none`) with the number of iterations
consumed; each iteration spends one derivative evaluation. -/
def newtonLoop (sys : Sys) (tn xn h M tol : ℚ) :
    ℕ → ℚ → ℕ → Option ℚ → ℕ → Option ℚ × ℕ
  | 0, _, _, _, _ => (none, 0)
  | fuel + 1, x, small, prev, inc =>
      let r := x - xn - h * sys.F (tn + h) x
      let dx := -(r / M)
      let x2 := x + dx
      let nrm := |dx| / max |x| 1
      let inc2 : ℕ := match prev with
        | some p => if p < nrm then inc + 1 else 0
        | none => 0
      if 2 ≤ inc2 then (none, 1)
      else if nrm ≤ kNewtonConvergenceFraction * tol then
        if 1 ≤ small then (some x2, 1)
        else
          let res := newtonLoop sys tn xn h M tol fuel x2 (small + 1) (some nrm) inc2
          (res.1, res.2 + 1)
      else
        let res := newtonLoop sys tn xn h M tol fuel x2 0 (some nrm) inc2
        (res.1, res.2 + 1)

/-- Modelled from the spec (§4.3): one full Newton solve starting from
`x₀ = xₙ` with the fixed iteration budget. -/
def newtonSolve (sys : Sys) (tn xn h M tol : ℚ) : Option ℚ × ℕ :=
  newtonLoop sys tn xn h M tol kMaxNewtonIterations xn 0 none 0

/-- Outcome of one implicit step attempt (spec §4.4): the candidate state
(the two-half-steps value, when all three Newton solves converged), the
error estimate `x_half − x_full`, and the cost incurred. -/
structure Attempt where
  result : Option ℚ
  errEst : ℚ
  iterations : ℕ
  factorizations : ℕ

/-- Modelled from the spec (§4.4, missing `implicit_euler_integrator.cc`):
the step-doubling error estimator.  One Newton solve over the full step `h`
yields `x_full`; two successive solves over half steps `h/2` yield `x_half`;
the error estimate is `x_half − x_full` and the returned state is `x_half`.
If any of the three solves fails, the whole attempt fails (failed sub-solves
still count toward the statistics).  The full-step and half-step iteration
matrices are each factored once and reused across the Newton iterations of
the same attempt. -/
def attemptStepDoubling (sys : Sys) (tn xn h tol J : ℚ) : Attempt :=
  let Mfull := 1 - h * J
  let rf := newtonSolve sys tn xn h Mfull tol
  match rf.1 with
  | none => ⟨none, 0, rf.2, 1⟩
  | some xfull =>
      let Mhalf := 1 - h / 2 * J
      let r1 := newtonSolve sys tn xn (h / 2) Mhalf tol
      match r1.1 with
      | none => ⟨none, 0, rf.2 + r1.2, 2⟩
      | some xmid =>
          let r2 := newtonSolve sys (tn + h / 2) xmid (h / 2) Mhalf tol
          match r2.1 with
          | none => ⟨none, 0, rf.2 + r1.2 + r2.2, 2⟩
          | some xhalf => ⟨some xhalf, xhalf - xfull, rf.2 + r1.2 + r2.2, 2⟩

/-- Modelled from the spec (§4.5, missing `implicit_euler_integrator.cc`):
the explicit (non-implicit) fallback sub-step, an explicit Euler step with
the same step-doubling estimate (its estimate is not of the implicit
formula's order).  Returns the committed state `x_half`, the estimate
`x_half − x_full` and the two derivative evaluations spent. -/
def explicitStepDoubling (sys : Sys) (tn xn h : ℚ) : ℚ × ℚ × ℕ :=
  let d0 := sys.F tn xn
  let xfull := xn + h * d0
  let xmid := xn + h / 2 * d0
  let xhalf := xmid + h / 2 * sys.F (tn + h / 2) xmid
  (xhalf, xhalf - xfull, 2)

/-- Statistics delta of one Jacobian evaluation costing `jc` derivative
evaluations (spec §4.1 side effect). -/
def jacStatsDelta (jc : ℕ) : Stats :=
  { Stats.zero with
    jacobian_evaluations := 1
    derivative_evaluations := jc
    derivative_evaluations_for_jacobian := jc }

/-- Statistics delta of one implicit step attempt (spec §4.4 cost
accounting). -/
def attemptStatsDelta (a : Attempt) : Stats :=
  { Stats.zero with
    newton_iterations := a.iterations
    derivative_evaluations := a.iterations
    factorizations := a.factorizations }

/-- Statistics delta of committing one step. -/
def stepTakenDelta : Stats := { Stats.zero with steps_taken := 1 }

/-- Statistics delta of one sub-step failure (spec §4.5). -/
def substepFailureDelta : Stats := { Stats.zero with substep_failures := 1 }

/-- Statistics delta of one step shrinkage forced by failed convergence
(spec §4.5, incurred on the retry path). -/
def shrinkFromFailureDelta : Stats :=
  { Stats.zero with shrinkages_from_substep_failures := 1 }

/-- Statistics delta of one step shrinkage driven by error control
(spec §4.5). -/
def errorControlShrinkDelta : Stats :=
  { Stats.zero with shrinkages_from_error_control := 1 }

/-- Statistics delta of one explicit fallback sub-step: `n` derivative
evaluations and one step taken. -/
def explicitStatsDelta (n : ℕ) : Stats :=
  { Stats.zero with derivative_evaluations := n, steps_taken := 1 }

/-- The fatal error raised when the shrunk step size would fall below the
working minimum while `throw_on_minimum_step_size_violation` is set. -/
def minimumStepViolationMessage : String :=
  "Error control requires a step smaller than the working minimum step size"

/-- Modelled from the spec (§4.5, missing `implicit_euler_integrator.cc`):
the Propose → Attempt → {Accept, ShrinkAndRetry, Fallback, Fatal} state
machine of one sub-step at proposed size `h`.  On a converged and accurate
attempt (always accurate in fixed-step mode) the candidate is accepted; a
converged but inaccurate attempt shrinks the step by the contraction factor
(here one half, a calibration constant per §9) and retries; a Newton failure
shrinks likewise after invalidating the cached Jacobian (the model
recomputes it on every attempt).  When the shrunk size would fall below the
working minimum: fatal error under the throwing policy, otherwise a single
explicit fallback sub-step of the minimum size.  Returns the new context,
the error estimate, whether that estimate is of the implicit formula's
order, and the accumulated statistics. -/
def subStepLoop (I : Integrator) (c : Context) (wmin : ℚ) :
    ℕ → ℚ → Stats → Except DrakeError (Context × ℚ × Bool × Stats)
  | 0, _, _ => .error (.runtimeError "sub-step retry budget exhausted")
  | fuel + 1, h, s =>
      match calcJacobian I c.time c.state with
      | .error e => .error e
      | .ok (J, jc) =>
          let a := attemptStepDoubling I.sys c.time c.state h I.accuracy_in_use J
          let s2 := (s.add (jacStatsDelta jc)).add (attemptStatsDelta a)
          match a.result with
          | some xh =>
              if I.fixed_step_mode ∨ |a.errEst| / max |xh| 1 ≤ I.accuracy_in_use then
                .ok (⟨c.time + h, xh⟩, a.errEst, true, s2.add stepTakenDelta)
              else if h / 2 < wmin then
                if I.throw_on_minimum_step_size_violation then
                  .error (.runtimeError minimumStepViolationMessage)
                else
                  let e := explicitStepDoubling I.sys c.time c.state wmin
                  .ok (⟨c.time + wmin, e.1⟩, e.2.1, false, s2.add (explicitStatsDelta e.2.2))
              else
                subStepLoop I c wmin fuel (h / 2) (s2.add errorControlShrinkDelta)
          | none =>
              let s3 := s2.add substepFailureDelta
              if h / 2 < wmin then
                if I.throw_on_minimum_step_size_violation then
                  .error (.runtimeError minimumStepViolationMessage)
                else
                  let e := explicitStepDoubling I.sys c.time c.state wmin
                  .ok (⟨c.time + wmin, e.1⟩, e.2.1, false, s3.add (explicitStatsDelta e.2.2))
              else
                subStepLoop I c wmin fuel (h / 2) (s3.add shrinkFromFailureDelta)

/-- Modelled from the spec (§4.5, missing `integrator_base.h`): the
per-request integration loop.  The loop ends exactly when the committed time
reaches the target (exact arithmetic target); otherwise it proposes the last
candidate step clamped to the working bounds and to not overshoot the
target, takes one sub-step, commits its result and grows the candidate for
the next proposal (growth factor two, a calibration constant per §9).  A
remaining interval below the working minimum is integrated by a single
explicit sub-step.  The fuel bounds the model recursion; exhausting it is a
model artifact reported as a runtime error. -/
def multiLoop (tFinal : ℚ) :
    ℕ → Integrator → Context → ℚ → Except DrakeError Integrator
  | 0, _, _, _ => .error (.runtimeError "step budget exhausted")
  | fuel + 1, I, c, hCand =>
      if c.time = tFinal then .ok I
      else
        let wmin := workingMinimumStepSize I c.time
        let remaining := tFinal - c.time
        if remaining < wmin then
          let e := explicitStepDoubling I.sys c.time c.state remaining
          let c2 : Context := ⟨tFinal, e.1⟩
          multiLoop tFinal fuel
            { I with
              context := some c2
              last_error_estimate := e.2.1
              last_estimate_implicit_order := false
              stats := I.stats.add (explicitStatsDelta e.2.2) } c2 hCand
        else
          let maxStep := I.maximum_step_size.getD hCand
          let h := min (max wmin (min hCand maxStep)) remaining
          match subStepLoop I c wmin fuel h I.stats with
          | .error e => .error e
          | .ok (c2, est, impl, s2) =>
              multiLoop tFinal fuel
                { I with
                  context := some c2
                  last_error_estimate := est
                  last_estimate_implicit_order := impl
                  stats := s2 } c2 (min (2 * (c2.time - c.time)) maxStep)

/-- The usage error raised when a step method is called before a successful
`Initialize()`. -/
def notInitializedMessage : String :=
  "Initialize must be called before performing any integration"

/-- The usage error raised when no context is attached. -/
def nullContextMessage : String := "Context has not been set"

/-- The usage error raised by `Initialize()` when neither a maximum step
size nor an initial step-size target has been configured. -/
def initializeConfigMessage : String :=
  "Neither maximum step size nor initial step size target has been set"

/-- Modelled from the spec (§4.5, §6, missing `integrator_base.h`):
`Initialize()` errors without a context or when neither a maximum step size
nor an initial step-size target has been configured; otherwise it resolves
`accuracy_in_use` from `target_accuracy` clamped to the scheme-appropriate
floor and marks the integrator ready for stepping. -/
def Initialize (I : Integrator) : Except DrakeError Integrator :=
  match I.context with
  | none => .error (.logicError nullContextMessage)
  | some _ =>
      if I.maximum_step_size = none ∧ I.initial_step_size_target = none then
        .error (.logicError initializeConfigMessage)
      else
        .ok { I with
              initialized := true
              accuracy_in_use := min (I.target_accuracy.getD kDefaultAccuracy) kLoosestAccuracy }

/-- Modelled from the spec (§6, §7, missing `integrator_base.h`):
`AttemptSingleFixedStep`, the single fixed step to a target time.  After the
usage checks, a target closer than the working minimum step size is taken by
the explicit fallback; otherwise one implicit attempt is made at exactly the
requested size: on convergence the candidate is committed and `true`
returned, on failure `false` is returned with the context untouched and no
retry at any smaller size. -/
def IntegrateWithSingleFixedStepToTime (I : Integrator) (tTarget : ℚ) :
    Except DrakeError (Bool × Integrator) :=
  if I.initialized = false then .error (.logicError notInitializedMessage)
  else
    match I.context with
    | none => .error (.logicError nullContextMessage)
    | some c =>
        if I.fixed_step_mode = false then
          .error (.logicError "This method requires fixed step mode")
        else
          let h := tTarget - c.time
          if h < workingMinimumStepSize I c.time then
            let e := explicitStepDoubling I.sys c.time c.state h
            .ok (true,
              { I with
                context := some ⟨tTarget, e.1⟩
                last_error_estimate := e.2.1
                last_estimate_implicit_order := false
                stats := I.stats.add (explicitStatsDelta e.2.2) })
          else
            match calcJacobian I c.time c.state with
            | .error e => .error e
            | .ok (J, jc) =>
                let a := attemptStepDoubling I.sys c.time c.state h I.accuracy_in_use J
                let s2 := (I.stats.add (jacStatsDelta jc)).add (attemptStatsDelta a)
                match a.result with
                | some xh =>
                    .ok (true,
                      { I with
                        context := some ⟨tTarget, xh⟩
                        last_error_estimate := a.errEst
                        last_estimate_implicit_order := true
                        stats := s2.add stepTakenDelta })
                | none =>
                    .ok (false, { I with stats := s2.add substepFailureDelta })

/-- Modelled from the spec (§6, §7, missing `integrator_base.h`):
`IntegrateToExactTime`, the multi-step integration that retries internally
as needed and ends only at the exact arithmetic target time or on a fatal
error. -/
def IntegrateWithMultipleStepsToTime (I : Integrator) (fuel : ℕ) (tFinal : ℚ) :
    Except DrakeError Integrator :=
  if I.initialized = false then .error (.logicError notInitializedMessage)
  else
    match I.context with
    | none => .error (.logicError nullContextMessage)
    | some c =>
        multiLoop tFinal fuel I c
          (I.initial_step_size_target.getD (I.maximum_step_size.getD 0))

/-- Modelled from the spec and the test surface (missing
`integrator_base.h`): `IntegrateNoFurtherThanTime` integrates to the nearest
of the publish, update and boundary times, after the same usage checks as
any other step method. -/
def IntegrateNoFurtherThanTime (I : Integrator) (fuel : ℕ)
    (publishTime updateTime boundaryTime : ℚ) : Except DrakeError Integrator :=
  if I.initialized = false then .error (.logicError notInitializedMessage)
  else
    match I.context with
    | none => .error (.logicError nullContextMessage)
    | some c =>
        multiLoop (min publishTime (min updateTime boundaryTime)) fuel I c
          (I.initial_step_size_target.getD (I.maximum_step_size.getD 0))

/-- Modelled from the spec (§6, missing `integrator_base.h`): replace the
context pointer (possibly with null); a changed context invalidates any
prior initialization. -/
def reset_context (I : Integrator) (c : Option Context) : Integrator :=
  { I with context := c, initialized := false }

/-- Modelled from the spec (§3, missing `integrator_base.h`): the explicit
statistics reset, the only operation that returns the counters to zero. -/
def ResetStatistics (I : Integrator) : Integrator := { I with stats := Stats.zero }

/-! ## Classes of systems used by the claims -/

/-- A system whose exact solution is linear in time: the derivative field is
the constant `S` (so the solution's second derivative vanishes identically)
and the true Jacobian is zero. -/
def ConstantDerivative (sys : Sys) (S : ℚ) : Prop :=
  (∀ t x, sys.F t x = S) ∧ (∀ t x, sys.dFdx t x = 0)

/-- A system whose derivative is affine in the state with slope `a` (the
spring-mass-damper family is of this form): differences of `F` in the state
argument are exactly `a` times the state difference, and the true Jacobian
is the constant `a`. -/
def AffineInState (sys : Sys) (a : ℚ) : Prop :=
  (∀ t x y, sys.F t x - sys.F t y = a * (x - y)) ∧ (∀ t x, sys.dFdx t x = a)

/-- Two sub-step results agreeing on everything the caller observes except
the cost statistics. -/
def SubRel : Except DrakeError (Context × ℚ × Bool × Stats) →
    Except DrakeError (Context × ℚ × Bool × Stats) → Prop
  | .error e1, .error e2 => e1 = e2
  | .ok (c1, e1, f1, _), .ok (c2, e2, f2, _) => c1 = c2 ∧ e1 = e2 ∧ f1 = f2
  | _, _ => False

/-- Two driver results agreeing on the observable view: the committed
context, the last error estimate and its order flag. -/
def ViewRel : Except DrakeError Integrator → Except DrakeError Integrator → Prop
  | .error e1, .error e2 => e1 = e2
  | .ok I1, .ok I2 => I1.context = I2.context ∧
      I1.last_error_estimate = I2.last_error_estimate ∧
      I1.last_estimate_implicit_order = I2.last_estimate_implicit_order
  | _, _ => False

/-! ## Concrete systems and integrators used as witnesses -/

/-- A stationary system: derivative identically zero. -/
def statSys : Sys := ⟨fun _ _ => 0, fun _ _ => 0⟩

/-- A system with constant derivative 3 (its exact solution is linear in
time). -/
def linSys : Sys := ⟨fun _ _ => 3, fun _ _ => 0⟩

/-- A quadratic system, `dx/dt = x²`, given to the Automatic scheme with a
zero reported partial so that the Newton iteration at unit step from state
two diverges (the weighted update norm grows on consecutive iterations). -/
def divergeSys : Sys := ⟨fun _ x => x * x, fun _ _ => 0⟩

/-- A fully configured, initialized error-controlled integrator over the
stationary system. -/
def statIntegrator : Integrator :=
  { sys := statSys
    scalar_type := ScalarType.double
    context := some ⟨0, 0⟩
    initialized := true
    target_accuracy := some (1 / 1000)
    maximum_step_size := some 1
    initial_step_size_target := some 1
    requested_minimum_step_size := 0
    fixed_step_mode := false
    jacobian_scheme := JacobianScheme.forwardDifference
    reuse := true
    throw_on_minimum_step_size_violation := true
    accuracy_in_use := 1 / 1000
    last_error_estimate := 0
    last_estimate_implicit_order := true
    stats := Stats.zero }

/-- The stationary integrator in fixed-step mode. -/
def statFixed : Integrator := { statIntegrator with fixed_step_mode := true }

/-- A fixed-step integrator over the constant-derivative system. -/
def linFixed : Integrator := { statFixed with sys := linSys }

/-- An error-controlled integrator over the constant-derivative system. -/
def linIntegrator : Integrator := { statIntegrator with sys := linSys }

/-- A fixed-step integrator over the diverging quadratic system, positioned
at state two, using the Automatic scheme. -/
def divergeFixed : Integrator :=
  { statFixed with
    sys := divergeSys
    context := some ⟨0, 2⟩
    accuracy_in_use := 1 / 10
    jacobian_scheme := JacobianScheme.automatic }

/-- The diverging integrator under the non-throwing minimum-step policy. -/
def divergeNoThrow : Integrator :=
  { divergeFixed with throw_on_minimum_step_size_violation := false }

/-- The constant-derivative fixed-step integrator instantiated with the
dual-number scalar type and the Automatic Jacobian scheme. -/
def autoDiffIntegrator : Integrator :=
  { linFixed with
    scalar_type := ScalarType.autoDiffXd
    jacobian_scheme := JacobianScheme.automatic }

/-- An integrator with neither a maximum step size nor an initial step-size
target configured. -/
def unconfiguredIntegrator : Integrator :=
  { statIntegrator with
    maximum_step_size := none
    initial_step_size_target := none
    initialized := false }

/-- The stationary integrator reconfigured with a target accuracy looser
than the resolvable floor. -/
def looseIntegrator : Integrator := { statIntegrator with target_accuracy := some 1 }

/-! ## Basic lemmas about statistics -/

theorem Stats.Le.refl (s : Stats) : Stats.Le s s := by
  unfold Stats.Le; omega

theorem Stats.Le.trans {s t u : Stats} (h1 : Stats.Le s t) (h2 : Stats.Le t u) :
    Stats.Le s u := by
  unfold Stats.Le at *; omega

theorem Stats.le_add (s d : Stats) : Stats.Le s (s.add d) := by
  unfold Stats.Le Stats.add
  refine ⟨?_, ?_, ?_, ?_, ?_, ?_, ?_, ?_, ?_⟩ <;> exact Nat.le_add_right _ _

/-! ## Lemmas about the Newton solver -/

/-- A successful Newton solve consumed at least one iteration. -/
theorem newtonLoop_pos (sys : Sys) (tn xn h M tol : ℚ) :
    ∀ (fuel : ℕ) (x : ℚ) (small : ℕ) (prev : Option ℚ) (inc : ℕ) (y : ℚ) (k : ℕ),
      newtonLoop sys tn xn h M tol fuel x small prev inc = (some y, k) →
      1 ≤ k := by
  intro fuel
  induction fuel with
  | zero => intro x small prev inc y k hy; simp [newtonLoop] at hy
  | succ n ih =>
      intro x small prev inc y k hy
      simp only [newtonLoop] at hy
      split at hy
      · simp at hy
      · split at hy
        · split at hy
          · obtain ⟨-, hk⟩ := Prod.mk.injEq .. ▸ hy; omega
          · obtain ⟨-, hk⟩ := Prod.mk.injEq .. ▸ hy; omega
        · obtain ⟨-, hk⟩ := Prod.mk.injEq .. ▸ hy; omega

theorem newtonSolve_pos (sys : Sys) (tn xn h M tol : ℚ) (y : ℚ) (k : ℕ)
    (hy : newtonSolve sys tn xn h M tol = (some y, k)) :
    1 ≤ k :=
  newtonLoop_pos sys tn xn h M tol kMaxNewtonIterations xn 0 none 0 y k hy

/-- On a system whose derivative is identically zero, every Newton iterate
stays at the initial state, so a converged solve returns it unchanged. -/
theorem newtonLoop_zero_system (sys : Sys) (hF : ∀ t x, sys.F t x = 0)
    (tn h M tol : ℚ) :
    ∀ (fuel : ℕ) (xn x : ℚ) (small : ℕ) (prev : Option ℚ) (inc : ℕ) (y : ℚ),
      x = xn →
      (newtonLoop sys tn xn h M tol fuel x small prev inc).1 = some y → y = xn := by
  intro fuel
  induction fuel with
  | zero => intro xn x small prev inc y hx hy; simp [newtonLoop] at hy
  | succ n ih =>
      intro xn x small prev inc y hx hy
      subst hx
      simp only [newtonLoop, hF, mul_zero, sub_zero, sub_self, zero_div, neg_zero,
        add_zero, abs_zero] at hy
      split at hy
      · simp at hy
      · split at hy
        · split at hy
          · simpa using hy.symm
          · exact ih x x _ _ _ y rfl hy
        · exact ih x x _ _ _ y rfl hy

/-- The weighted update norm is never negative. -/
theorem weightedNorm_nonneg (dx x : ℚ) : 0 ≤ |dx| / max |x| 1 :=
  div_nonneg (abs_nonneg _) (le_trans zero_le_one (le_max_right _ _))

/-- One unfolding of the Newton iteration (the defining equation at
positive fuel). -/
theorem newtonLoop_succ (sys : Sys) (tn xn h M tol : ℚ) (fuel : ℕ) (x : ℚ)
    (small : ℕ) (prev : Option ℚ) (inc : ℕ) :
    newtonLoop sys tn xn h M tol (fuel + 1) x small prev inc =
      (let r := x - xn - h * sys.F (tn + h) x
       let dx := -(r / M)
       let x2 := x + dx
       let nrm := |dx| / max |x| 1
       let inc2 : ℕ := match prev with
         | some p => if p < nrm then inc + 1 else 0
         | none => 0
       if 2 ≤ inc2 then (none, 1)
       else if nrm ≤ kNewtonConvergenceFraction * tol then
         if 1 ≤ small then (some x2, 1)
         else
           let res := newtonLoop sys tn xn h M tol fuel x2 (small + 1) (some nrm) inc2
           (res.1, res.2 + 1)
       else
         let res := newtonLoop sys tn xn h M tol fuel x2 0 (some nrm) inc2
         (res.1, res.2 + 1)) := rfl

/-- On a constant-derivative system, an iterate that already solves the
implicit-step equation is returned unchanged after one confirming
iteration when a small update has already been seen. -/
theorem newtonLoop_const_one (sys : Sys) (S : ℚ) (hF : ∀ t x, sys.F t x = S)
    (tn xn h tol : ℚ) (htol : 0 ≤ kNewtonConvergenceFraction * tol)
    (fuel small inc : ℕ) (p : ℚ) (hp : 0 ≤ p) (hsmall : 1 ≤ small) :
    newtonLoop sys tn xn h 1 tol (fuel + 1) (xn + h * S) small (some p) inc =
      (some (xn + h * S), 1) := by
  simp only [newtonLoop, hF]
  rw [show xn + h * S - xn - h * S = 0 from by ring]
  simp only [zero_div, neg_zero, add_zero, abs_zero]
  rw [if_neg (not_lt.mpr hp)]
  simp only [Nat.le_zero, OfNat.ofNat_ne_zero, if_false, if_pos htol, if_pos hsmall]

/-- On a constant-derivative system, an iterate that already solves the
implicit-step equation converges within two further iterations from any
iteration state whose previous update norm was nonnegative. -/
theorem newtonLoop_const_settled (sys : Sys) (S : ℚ) (hF : ∀ t x, sys.F t x = S)
    (tn xn h tol : ℚ) (htol : 0 ≤ kNewtonConvergenceFraction * tol)
    (fuel small inc : ℕ) (p : ℚ) (hp : 0 ≤ p) :
    ∃ k, newtonLoop sys tn xn h 1 tol (fuel + 2) (xn + h * S) small (some p) inc =
      (some (xn + h * S), k) ∧ 1 ≤ k := by
  by_cases hsmall : 1 ≤ small
  · exact ⟨1, newtonLoop_const_one sys S hF tn xn h tol htol (fuel + 1) small inc p hp hsmall,
      le_refl 1⟩
  · rw [show fuel + 2 = (fuel + 1) + 1 from rfl, newtonLoop_succ]
    simp only [hF]
    rw [show xn + h * S - xn - h * S = 0 from by ring]
    simp only [zero_div, neg_zero, add_zero, abs_zero]
    rw [if_neg (not_lt.mpr hp)]
    simp only [Nat.le_zero, OfNat.ofNat_ne_zero, if_false, if_pos htol, if_neg hsmall]
    rw [newtonLoop_const_one sys S hF tn xn h tol htol fuel (small + 1) 0 0 (le_refl 0)
      (Nat.le_add_left 1 small)]
    exact ⟨2, rfl, by omega⟩

/-- On a constant-derivative system the Newton solve with the exact
iteration matrix (the true Jacobian is zero, so `M = 1`) converges to the
exact implicit-Euler step `xₙ + h·S`. -/
theorem newtonSolve_const (sys : Sys) (S : ℚ) (hF : ∀ t x, sys.F t x = S)
    (tn xn h tol : ℚ) (htol : 0 ≤ kNewtonConvergenceFraction * tol) :
    ∃ k, newtonSolve sys tn xn h 1 tol = (some (xn + h * S), k) ∧ 1 ≤ k := by
  unfold newtonSolve
  rw [show kMaxNewtonIterations = 9 + 1 from rfl, newtonLoop_succ]
  simp only [hF]
  rw [show xn - xn - h * S = -(h * S) from by ring]
  simp only [div_one, neg_neg, Nat.le_zero, OfNat.ofNat_ne_zero, if_false]
  by_cases hc : |h * S| / max |xn| 1 ≤ kNewtonConvergenceFraction * tol
  · rw [if_pos hc, if_neg (by omega : ¬(1 : ℕ) = 0)]
    rw [show (9 : ℕ) = 7 + 2 from rfl]
    obtain ⟨k, hk, hk1⟩ := newtonLoop_const_settled sys S hF tn xn h tol htol 7 (0 + 1) 0
      (|h * S| / max |xn| 1) (weightedNorm_nonneg _ _)
    rw [hk]
    exact ⟨k + 1, rfl, by omega⟩
  · rw [if_neg hc]
    rw [show (9 : ℕ) = 7 + 2 from rfl]
    obtain ⟨k, hk, hk1⟩ := newtonLoop_const_settled sys S hF tn xn h tol htol 7 0 0
      (|h * S| / max |xn| 1) (weightedNorm_nonneg _ _)
    rw [hk]
    exact ⟨k + 1, rfl, by omega⟩

/-! ## Lemmas about the step-doubling attempt -/

/-- A successful attempt consumed at least one Newton iteration. -/
theorem attemptStepDoubling_pos (sys : Sys) (tn xn h tol J : ℚ) (xh : ℚ)
    (hxh : (attemptStepDoubling sys tn xn h tol J).result = some xh) :
    1 ≤ (attemptStepDoubling sys tn xn h tol J).iterations := by
  unfold attemptStepDoubling at hxh ⊢
  rcases h1 : (newtonSolve sys tn xn h (1 - h * J) tol) with ⟨r1, k1⟩
  rcases r1 with - | xfull
  · simp [h1] at hxh
  · have hk1 : 1 ≤ k1 := newtonSolve_pos sys tn xn h (1 - h * J) tol xfull k1 h1
    rcases h2 : (newtonSolve sys tn xn (h / 2) (1 - h / 2 * J) tol) with ⟨r2, k2⟩
    rcases r2 with - | xmid
    · simp [h1, h2]; omega
    · rcases h3 : (newtonSolve sys (tn + h / 2) xmid (h / 2) (1 - h / 2 * J) tol) with ⟨r3, k3⟩
      rcases r3 with - | xhalf
      · simp [h1, h2, h3]; omega
      · simp [h1, h2, h3]; omega

/-- On a system with identically zero derivative, a successful attempt
returns the initial state unchanged. -/
theorem attemptStepDoubling_zero (sys : Sys) (hF : ∀ t x, sys.F t x = 0)
    (tn xn h tol J : ℚ) (xh : ℚ)
    (hxh : (attemptStepDoubling sys tn xn h tol J).result = some xh) : xh = xn := by
  unfold attemptStepDoubling at hxh
  rcases h1 : (newtonSolve sys tn xn h (1 - h * J) tol) with ⟨r1, k1⟩
  rcases r1 with - | xfull
  · simp [h1] at hxh
  · rcases h2 : (newtonSolve sys tn xn (h / 2) (1 - h / 2 * J) tol) with ⟨r2, k2⟩
    rcases r2 with - | xmid
    · simp [h1, h2] at hxh
    · have hmid : xmid = xn := newtonLoop_zero_system sys hF tn (h / 2) (1 - h / 2 * J) tol
        kMaxNewtonIterations xn xn 0 none 0 xmid rfl (by rw [show newtonLoop sys tn xn (h / 2)
          (1 - h / 2 * J) tol kMaxNewtonIterations xn 0 none 0 = newtonSolve sys tn xn (h / 2)
          (1 - h / 2 * J) tol from rfl, h2])
      rcases h3 : (newtonSolve sys (tn + h / 2) xmid (h / 2) (1 - h / 2 * J) tol) with ⟨r3, k3⟩
      rcases r3 with - | xhalf
      · simp [h1, h2, h3] at hxh
      · have hhalf : xhalf = xmid := newtonLoop_zero_system sys hF (tn + h / 2) (h / 2)
          (1 - h / 2 * J) tol kMaxNewtonIterations xmid xmid 0 none 0 xhalf rfl
          (by rw [show newtonLoop sys (tn + h / 2) xmid (h / 2) (1 - h / 2 * J) tol
            kMaxNewtonIterations xmid 0 none 0 = newtonSolve sys (tn + h / 2) xmid (h / 2)
            (1 - h / 2 * J) tol from rfl, h3])
        simp [h1, h2, h3] at hxh
        exact hxh.symm.trans (hhalf.trans hmid)

/-- On a constant-derivative system with the true (zero) Jacobian, the
attempt converges to the exact implicit-Euler value with a vanishing error
estimate. -/
theorem attemptStepDoubling_const (sys : Sys) (S : ℚ) (hF : ∀ t x, sys.F t x = S)
    (tn xn h tol : ℚ) (htol : 0 ≤ kNewtonConvergenceFraction * tol) :
    ∃ k, attemptStepDoubling sys tn xn h tol 0 = ⟨some (xn + h * S), 0, k, 2⟩ ∧ 1 ≤ k := by
  obtain ⟨k1, hk1, h1k1⟩ := newtonSolve_const sys S hF tn xn h tol htol
  obtain ⟨k2, hk2, h1k2⟩ := newtonSolve_const sys S hF tn xn (h / 2) tol htol
  obtain ⟨k3, hk3, h1k3⟩ :=
    newtonSolve_const sys S hF (tn + h / 2) (xn + h / 2 * S) (h / 2) tol htol
  refine ⟨k1 + k2 + k3, ?_, by omega⟩
  unfold attemptStepDoubling
  rw [show (1 : ℚ) - h * 0 = 1 from by ring, show (1 : ℚ) - h / 2 * 0 = 1 from by ring]
  simp only [hk1, hk2, hk3]
  simp only [Attempt.mk.injEq]
  refine ⟨by rw [Option.some.injEq]; ring, by ring, trivial, trivial⟩

/-! ## Lemmas about the explicit fallback and the Jacobian schemes -/

/-- The explicit fallback's step-doubling error estimate vanishes on a
constant-derivative system. -/
theorem explicitStepDoubling_const (sys : Sys) (S : ℚ) (hF : ∀ t x, sys.F t x = S)
    (tn xn h : ℚ) :
    (explicitStepDoubling sys tn xn h).1 = xn + h * S ∧
    (explicitStepDoubling sys tn xn h).2.1 = 0 := by
  unfold explicitStepDoubling
  simp only [hF]
  constructor <;> ring

/-- The explicit fallback keeps a zero state on a system with identically
zero derivative. -/
theorem explicitStepDoubling_zero (sys : Sys) (hF : ∀ t x, sys.F t x = 0) (tn h : ℚ) :
    (explicitStepDoubling sys tn 0 h).1 = 0 := by
  unfold explicitStepDoubling
  simp [hF]

/-- The perturbation scale is strictly positive. -/
theorem perturbation_pos (x : ℚ) : 0 < perturbation x := by
  unfold perturbation sqrtEps
  have h1 : (0 : ℚ) < max |x| 1 := lt_of_lt_of_le zero_lt_one (le_max_right _ _)
  positivity

/-- On a constant-derivative system every available scheme computes the zero
Jacobian. -/
theorem calcJacobian_const (I : Integrator) (S : ℚ)
    (hF : ∀ t x, I.sys.F t x = S) (hdF : ∀ t x, I.sys.dFdx t x = 0)
    (hok : ¬(I.jacobian_scheme = JacobianScheme.automatic ∧
             I.scalar_type = ScalarType.autoDiffXd)) (t x : ℚ) :
    ∃ jc, calcJacobian I t x = .ok (0, jc) := by
  unfold calcJacobian
  cases hs : I.jacobian_scheme with
  | forwardDifference =>
      exact ⟨2, by simp [forwardDiffJacobian, hF]⟩
  | centralDifference =>
      exact ⟨2, by simp [centralDiffJacobian, hF]⟩
  | automatic =>
      cases hsc : I.scalar_type with
      | double => exact ⟨1, by simp [hdF]⟩
      | autoDiffXd => exact absurd ⟨hs, hsc⟩ hok

/-- On a system affine in the state all three schemes compute the exact
Jacobian value `a` (the difference quotients of an affine function are
exact), provided the integrator scalar type supports the Automatic scheme. -/
theorem calcJacobian_affine (I : Integrator) (a : ℚ)
    (haff : AffineInState I.sys a) (hsc : I.scalar_type = ScalarType.double) (t x : ℚ) :
    (calcJacobian I t x).map Prod.fst = .ok a := by
  obtain ⟨hF, hdF⟩ := haff
  unfold calcJacobian
  cases I.jacobian_scheme with
  | forwardDifference =>
      have hnum : I.sys.F t (x + perturbation x) - I.sys.F t x = a * perturbation x := by
        rw [hF t (x + perturbation x) x]; ring
      simp [forwardDiffJacobian, hnum,
        mul_div_cancel_right₀ a (ne_of_gt (perturbation_pos x)), Except.map]
  | centralDifference =>
      have hnum : I.sys.F t (x + perturbation x) - I.sys.F t (x - perturbation x) =
          a * (2 * perturbation x) := by
        rw [hF t (x + perturbation x) (x - perturbation x)]; ring
      have h2 : (2 : ℚ) * perturbation x ≠ 0 := by
        have := perturbation_pos x; positivity
      simp [centralDiffJacobian, hnum, mul_div_cancel_right₀ a h2, Except.map]
  | automatic =>
      rw [hsc]
      simp [hdF, Except.map]

/-- Under the Automatic scheme on an integrator whose scalar type is already
differentiable, the Jacobian computation fails with the descriptive
unsupported-operation error. -/
theorem calcJacobian_autodiff (I : Integrator)
    (hs : I.jacobian_scheme = JacobianScheme.automatic)
    (hsc : I.scalar_type = ScalarType.autoDiffXd) (t x : ℚ) :
    calcJacobian I t x = .error (.runtimeError autoDiffJacobianErrorMessage) := by
  unfold calcJacobian
  rw [hs, hsc]

/-! ## Claim theorems -/

/-- C1: with `jacobian_scheme = Automatic` on an integrator whose own scalar
type is already a differentiable (dual-number) type, a step attempt fails
with the descriptive unsupported-operation runtime error — surfaced
immediately as the operation's result, with nothing committed and no retry —
and switching the same integrator back to ForwardDifference lets the step
proceed without error. -/
theorem autodiff_jacobian_unsupported (I : Integrator) (c : Context) (tTarget : ℚ)
    (hinit : I.initialized = true) (hctx : I.context = some c)
    (hfix : I.fixed_step_mode = true)
    (hsch : I.jacobian_scheme = JacobianScheme.automatic)
    (hsc : I.scalar_type = ScalarType.autoDiffXd)
    (hmin : ¬(tTarget - c.time < workingMinimumStepSize I c.time)) :
    IntegrateWithSingleFixedStepToTime I tTarget =
      .error (.runtimeError autoDiffJacobianErrorMessage) ∧
    ∃ r, IntegrateWithSingleFixedStepToTime
      { I with jacobian_scheme := JacobianScheme.forwardDifference } tTarget = .ok r := by
  constructor
  · unfold IntegrateWithSingleFixedStepToTime
    rw [hinit, hctx]
    simp only [Bool.true_eq_false, if_false]
    rw [hfix]
    simp only [Bool.true_eq_false, if_false]
    rw [if_neg hmin, calcJacobian_autodiff I hsch hsc]
  · unfold IntegrateWithSingleFixedStepToTime
    simp only [hinit, hctx, hfix, Bool.true_eq_false, if_false]
    split
    · exact ⟨_, rfl⟩
    · dsimp only [calcJacobian]
      rcases hres : (attemptStepDoubling I.sys c.time c.state (tTarget - c.time)
          I.accuracy_in_use (forwardDiffJacobian I.sys c.time c.state)).result with - | xh
      · simp only [hres]
        exact ⟨_, rfl⟩
      · simp only [hres]
        exact ⟨_, rfl⟩

/-- C3: in fixed-step mode, when the single implicit attempt at the
requested size fails to converge, the single-fixed-step operation returns
`false` rather than raising, the context is left unchanged, and no retry at
a smaller step happens (neither shrinkage counter moves). -/
theorem fixed_step_failure_returns_false (I : Integrator) (c : Context) (tTarget : ℚ)
    (hinit : I.initialized = true) (hctx : I.context = some c)
    (hfix : I.fixed_step_mode = true)
    (hmin : ¬(tTarget - c.time < workingMinimumStepSize I c.time))
    (J : ℚ) (jc : ℕ) (hjac : calcJacobian I c.time c.state = .ok (J, jc))
    (hfail : (attemptStepDoubling I.sys c.time c.state (tTarget - c.time)
      I.accuracy_in_use J).result = none) :
    ∃ I2, IntegrateWithSingleFixedStepToTime I tTarget = .ok (false, I2) ∧
      I2.context = some c ∧
      I2.stats.shrinkages_from_substep_failures =
        I.stats.shrinkages_from_substep_failures ∧
      I2.stats.shrinkages_from_error_control = I.stats.shrinkages_from_error_control := by
  unfold IntegrateWithSingleFixedStepToTime
  rw [hinit, hctx]
  simp only [Bool.true_eq_false, if_false]
  rw [hfix]
  simp only [Bool.true_eq_false, if_false]
  rw [if_neg hmin, hjac]
  simp only [hfail]
  refine ⟨_, rfl, rfl, ?_, ?_⟩ <;>
    simp [Stats.add, jacStatsDelta, attemptStatsDelta, substepFailureDelta, Stats.zero]

/-- C5: `Initialize()` raises a usage (logic) error when neither a maximum
step size nor an initial step-size target has been configured; with a
maximum step size configured it succeeds, and whenever the requested target
accuracy is looser than the scheme's resolvable floor the resolved
`accuracy_in_use` differs from the target. -/
theorem initialize_contract (I : Integrator) (c : Context) (hctx : I.context = some c) :
    (I.maximum_step_size = none → I.initial_step_size_target = none →
      Initialize I = .error (.logicError initializeConfigMessage)) ∧
    (∀ m, I.maximum_step_size = some m →
      ∃ I2, Initialize I = .ok I2 ∧
        ∀ a, I.target_accuracy = some a → kLoosestAccuracy < a →
          I2.accuracy_in_use ≠ a) := by
  constructor
  · intro hmax htarget
    unfold Initialize
    rw [hctx, if_pos ⟨hmax, htarget⟩]
  · intro m hmax
    unfold Initialize
    rw [hctx, if_neg (by simp [hmax])]
    refine ⟨_, rfl, ?_⟩
    intro a hacc hloose
    simp only [hacc, Option.getD_some]
    have : min a kLoosestAccuracy = kLoosestAccuracy := min_eq_right (le_of_lt hloose)
    rw [this]
    exact ne_of_lt hloose

/-- C10: after the context pointer is reset to null, `Initialize()` raises a
logic error and the stepping operation `IntegrateNoFurtherThanTime` also
raises a logic error instead of touching any state; both operations return
nothing but the error, and the previously attached context value is
untouched (the reset only clears the integrator's own pointer). -/
theorem null_context_usage_errors (I : Integrator) (fuel : ℕ)
    (publishTime updateTime boundaryTime : ℚ) :
    (reset_context I none).context = none ∧
    Initialize (reset_context I none) = .error (.logicError nullContextMessage) ∧
    IntegrateNoFurtherThanTime (reset_context I none) fuel publishTime updateTime
      boundaryTime = .error (.logicError notInitializedMessage) := by
  refine ⟨rfl, ?_, ?_⟩
  · unfold Initialize reset_context
    rfl
  · unfold IntegrateNoFurtherThanTime reset_context
    rfl

/-- C6: when a Newton failure forces step shrinkage and the shrunk size
would fall below the working minimum, the policy flag decides the outcome:
with `throw_on_minimum_step_size_violation` the sub-step fails fatally;
otherwise a single explicit sub-step of the minimum size is taken,
guaranteeing strict forward progress, recorded as a step taken whose error
estimate is not of the implicit formula's order. -/
theorem minimum_step_violation_policy (I : Integrator) (c : Context) (wmin h : ℚ)
    (s : Stats) (fuel : ℕ) (hw : 0 < wmin)
    (J : ℚ) (jc : ℕ) (hjac : calcJacobian I c.time c.state = .ok (J, jc))
    (hfail : (attemptStepDoubling I.sys c.time c.state h I.accuracy_in_use J).result = none)
    (hsmall : h / 2 < wmin) :
    (I.throw_on_minimum_step_size_violation = true →
      subStepLoop I c wmin (fuel + 1) h s =
        .error (.runtimeError minimumStepViolationMessage)) ∧
    (I.throw_on_minimum_step_size_violation = false →
      ∃ c2 est s2, subStepLoop I c wmin (fuel + 1) h s = .ok (c2, est, false, s2) ∧
        c2.time = c.time + wmin ∧ c.time < c2.time ∧
        s.steps_taken < s2.steps_taken) := by
  constructor
  · intro hthrow
    simp only [subStepLoop]
    rw [hjac]
    simp only [hfail, if_pos hsmall, hthrow, if_true]
  · intro hthrow
    simp only [subStepLoop]
    rw [hjac]
    simp only [hfail, if_pos hsmall, hthrow, Bool.false_eq_true, if_false]
    refine ⟨_, _, _, rfl, rfl, lt_add_of_pos_right c.time hw, ?_⟩
    simp [Stats.add, jacStatsDelta, attemptStatsDelta, substepFailureDelta,
      explicitStatsDelta, Stats.zero]

/-- On a constant-derivative system a single fixed step always completes
with a vanishing error estimate (shared between the claims that need a
concrete successful step). -/
theorem single_fixed_step_const_ok (I : Integrator) (c : Context)
    (S tTarget : ℚ) (hconst : ConstantDerivative I.sys S)
    (hinit : I.initialized = true) (hctx : I.context = some c)
    (hfix : I.fixed_step_mode = true) (hacc : 0 ≤ I.accuracy_in_use)
    (hok : ¬(I.jacobian_scheme = JacobianScheme.automatic ∧
             I.scalar_type = ScalarType.autoDiffXd)) :
    ∃ I2, IntegrateWithSingleFixedStepToTime I tTarget = .ok (true, I2) ∧
      I2.last_error_estimate = 0 := by
  obtain ⟨hF, hdF⟩ := hconst
  unfold IntegrateWithSingleFixedStepToTime
  simp only [hinit, hctx, hfix, Bool.true_eq_false, if_false]
  split
  · exact ⟨_, rfl, (explicitStepDoubling_const I.sys S hF c.time c.state
      (tTarget - c.time)).2⟩
  · obtain ⟨jc, hjac⟩ := calcJacobian_const I S hF hdF hok c.time c.state
    rw [hjac]
    have htol : 0 ≤ kNewtonConvergenceFraction * I.accuracy_in_use :=
      mul_nonneg (by norm_num [kNewtonConvergenceFraction]) hacc
    obtain ⟨k, hatt, -⟩ := attemptStepDoubling_const I.sys S hF c.time c.state
      (tTarget - c.time) I.accuracy_in_use htol
    simp only [hatt]
    exact ⟨_, rfl, rfl⟩

/-- C2: on any system whose exact solution is linear in time (constant
derivative field, vanishing second derivative), a completed step attempt
reports an error estimate exactly equal to zero — both for a normal
implicit step and for a step whose target lies below the working minimum
step size (the explicit-fallback mode). -/
theorem linear_solution_zero_error_estimate (I : Integrator) (c : Context)
    (S tTarget : ℚ) (hconst : ConstantDerivative I.sys S)
    (hinit : I.initialized = true) (hctx : I.context = some c)
    (hfix : I.fixed_step_mode = true) (hacc : 0 ≤ I.accuracy_in_use)
    (hok : ¬(I.jacobian_scheme = JacobianScheme.automatic ∧
             I.scalar_type = ScalarType.autoDiffXd)) :
    ∃ I2, IntegrateWithSingleFixedStepToTime I tTarget = .ok (true, I2) ∧
      I2.last_error_estimate = 0 :=
  single_fixed_step_const_ok I c S tTarget hconst hinit hctx hfix hacc hok

/-! ## Invariants of the multi-step loop -/

/-- The multi-step loop returns normally only once the committed time equals
the target time exactly. -/
theorem multiLoop_ok_time (tFinal : ℚ) :
    ∀ (fuel : ℕ) (I : Integrator) (c : Context) (cand : ℚ) (I2 : Integrator),
      I.context = some c →
      multiLoop tFinal fuel I c cand = .ok I2 →
      ∃ c2, I2.context = some c2 ∧ c2.time = tFinal := by
  intro fuel
  induction fuel with
  | zero => intro I c cand I2 hc h; simp [multiLoop] at h
  | succ n ih =>
      intro I c cand I2 hc h
      simp only [multiLoop] at h
      split at h
      · rename_i htime
        cases h
        exact ⟨c, hc, htime⟩
      · split at h
        · exact ih _ _ _ I2 rfl h
        · split at h
          · simp at h
          · exact ih _ _ _ I2 rfl h

/-- On a system with identically zero derivative, every context a sub-step
commits keeps the zero state. -/
theorem subStepLoop_zero_state :
    ∀ (fuel : ℕ) (I : Integrator) (c : Context) (wmin h : ℚ) (s : Stats)
      (c2 : Context) (est : ℚ) (fl : Bool) (s2 : Stats),
      (∀ t x, I.sys.F t x = 0) → c.state = 0 →
      subStepLoop I c wmin fuel h s = .ok (c2, est, fl, s2) → c2.state = 0 := by
  intro fuel
  induction fuel with
  | zero => intro I c wmin h s c2 est fl s2 hF hc0 hss; simp [subStepLoop] at hss
  | succ n ih =>
      intro I c wmin h s c2 est fl s2 hF hc0 hss
      simp only [subStepLoop] at hss
      split at hss
      · simp at hss
      · rename_i J jc hjac
        split at hss
        · rename_i xh heq
          split at hss
          · cases hss
            exact (attemptStepDoubling_zero I.sys hF c.time c.state h
              I.accuracy_in_use J xh heq).trans hc0
          · split at hss
            · split at hss
              · simp at hss
              · cases hss
                rw [hc0] at *
                exact explicitStepDoubling_zero I.sys hF c.time wmin
            · exact ih _ _ _ _ _ _ _ _ _ hF hc0 hss
        · split at hss
          · split at hss
            · simp at hss
            · cases hss
              rw [hc0] at *
              exact explicitStepDoubling_zero I.sys hF c.time wmin
          · exact ih _ _ _ _ _ _ _ _ _ hF hc0 hss

/-- On a system with identically zero derivative, the multi-step loop keeps
a zero initial state at zero in every context it returns. -/
theorem multiLoop_zero_state (tFinal : ℚ) :
    ∀ (fuel : ℕ) (I : Integrator) (c : Context) (cand : ℚ) (I2 : Integrator),
      (∀ t x, I.sys.F t x = 0) → I.context = some c → c.state = 0 →
      multiLoop tFinal fuel I c cand = .ok I2 →
      ∃ c2, I2.context = some c2 ∧ c2.state = 0 := by
  intro fuel
  induction fuel with
  | zero => intro I c cand I2 hF hc hc0 h; simp [multiLoop] at h
  | succ n ih =>
      intro I c cand I2 hF hc hc0 h
      simp only [multiLoop] at h
      split at h
      · cases h
        exact ⟨c, hc, hc0⟩
      · split at h
        · have hstate : (explicitStepDoubling I.sys c.time c.state (tFinal - c.time)).1 = 0 := by
            rw [hc0]
            exact explicitStepDoubling_zero I.sys hF c.time (tFinal - c.time)
          refine ih _ _ _ I2 ?_ rfl hstate h
          exact hF
        · split at h
          · simp at h
          · rename_i c2m estm implm s2m heq
            have hstate : c2m.state = 0 :=
              subStepLoop_zero_state n I c _ _ I.stats c2m estm implm s2m hF hc0 heq
            refine ih _ _ _ I2 ?_ rfl hstate h
            exact hF

/-- C4: the multi-step integration operation either raises (usage error,
fatal minimum-step violation, or exhausted model budget) or returns with the
committed time equal to the target time exactly — an exact arithmetic
target, however many internal retries it took. -/
theorem integrate_multi_reaches_target_exactly (I : Integrator) (fuel : ℕ)
    (tFinal : ℚ) (I2 : Integrator)
    (h : IntegrateWithMultipleStepsToTime I fuel tFinal = .ok I2) :
    ∃ c2, I2.context = some c2 ∧ c2.time = tFinal := by
  unfold IntegrateWithMultipleStepsToTime at h
  split at h
  · simp at h
  · split at h
    · simp at h
    · rename_i c hc
      exact multiLoop_ok_time tFinal fuel I c _ I2 hc h

/-- C7: on a stationary system (derivative identically zero), integrating a
zero initial state to any end time returns the zero state exactly, for every
requested accuracy and configuration. -/
theorem stationary_zero_state_preserved (I : Integrator) (fuel : ℕ) (tFinal : ℚ)
    (c : Context) (I2 : Integrator)
    (hF : ∀ t x, I.sys.F t x = 0) (hctx : I.context = some c) (hc0 : c.state = 0)
    (h : IntegrateWithMultipleStepsToTime I fuel tFinal = .ok I2) :
    ∃ c2, I2.context = some c2 ∧ c2.state = 0 := by
  unfold IntegrateWithMultipleStepsToTime at h
  split at h
  · simp at h
  · split at h
    · simp at h
    · rename_i cm hcm
      have : cm = c := by rw [hcm] at hctx; exact Option.some.injEq _ _ ▸ hctx
      subst this
      exact multiLoop_zero_state tFinal fuel I cm _ I2 hF hcm hc0 h

/-! ## Statistics monotonicity -/

/-- The sub-step state machine only adds to the statistics it is given. -/
theorem subStepLoop_stats_le :
    ∀ (fuel : ℕ) (I : Integrator) (c : Context) (wmin h : ℚ) (s : Stats)
      (c2 : Context) (est : ℚ) (fl : Bool) (s2 : Stats),
      subStepLoop I c wmin fuel h s = .ok (c2, est, fl, s2) → Stats.Le s s2 := by
  intro fuel
  induction fuel with
  | zero => intro I c wmin h s c2 est fl s2 hss; simp [subStepLoop] at hss
  | succ n ih =>
      intro I c wmin h s c2 est fl s2 hss
      simp only [subStepLoop] at hss
      split at hss
      · simp at hss
      · rename_i J jc hjac
        split at hss
        · rename_i xh heq
          split at hss
          · cases hss
            exact Stats.Le.trans (Stats.Le.trans (Stats.le_add _ _) (Stats.le_add _ _))
              (Stats.le_add _ _)
          · split at hss
            · split at hss
              · simp at hss
              · cases hss
                exact Stats.Le.trans (Stats.Le.trans (Stats.le_add _ _) (Stats.le_add _ _))
                  (Stats.le_add _ _)
            · exact Stats.Le.trans
                (Stats.Le.trans (Stats.Le.trans (Stats.le_add _ _) (Stats.le_add _ _))
                  (Stats.le_add _ _)) (ih _ _ _ _ _ _ _ _ _ hss)
        · split at hss
          · split at hss
            · simp at hss
            · cases hss
              exact Stats.Le.trans (Stats.Le.trans (Stats.Le.trans (Stats.le_add _ _)
                (Stats.le_add _ _)) (Stats.le_add _ _)) (Stats.le_add _ _)
          · exact Stats.Le.trans (Stats.Le.trans (Stats.Le.trans (Stats.Le.trans
              (Stats.le_add _ _) (Stats.le_add _ _)) (Stats.le_add _ _)) (Stats.le_add _ _))
              (ih _ _ _ _ _ _ _ _ _ hss)

/-- The multi-step loop only adds to the driver's statistics. -/
theorem multiLoop_stats_le (tFinal : ℚ) :
    ∀ (fuel : ℕ) (I : Integrator) (c : Context) (cand : ℚ) (I2 : Integrator),
      multiLoop tFinal fuel I c cand = .ok I2 → Stats.Le I.stats I2.stats := by
  intro fuel
  induction fuel with
  | zero => intro I c cand I2 h; simp [multiLoop] at h
  | succ n ih =>
      intro I c cand I2 h
      simp only [multiLoop] at h
      split at h
      · cases h
        exact Stats.Le.refl _
      · split at h
        · exact Stats.Le.trans (Stats.le_add _ _) (ih _ _ _ I2 h)
        · split at h
          · simp at h
          · rename_i c2m estm implm s2m heq
            exact Stats.Le.trans (subStepLoop_stats_le n I c _ _ I.stats c2m estm
              implm s2m heq) (ih _ _ _ I2 h)

/-- A multi-step integration request never decreases a statistics counter. -/
theorem integrate_multi_stats_le (I : Integrator) (fuel : ℕ) (tFinal : ℚ)
    (I2 : Integrator) (h : IntegrateWithMultipleStepsToTime I fuel tFinal = .ok I2) :
    Stats.Le I.stats I2.stats := by
  unfold IntegrateWithMultipleStepsToTime at h
  split at h
  · simp at h
  · split at h
    · simp at h
    · exact multiLoop_stats_le tFinal fuel I _ _ I2 h

/-- A single fixed step never decreases a statistics counter. -/
theorem single_step_stats_le (I : Integrator) (t : ℚ) (b : Bool) (I2 : Integrator)
    (h : IntegrateWithSingleFixedStepToTime I t = .ok (b, I2)) :
    Stats.Le I.stats I2.stats := by
  unfold IntegrateWithSingleFixedStepToTime at h
  dsimp only at h
  split at h
  · simp at h
  · split at h
    · simp at h
    · split at h
      · simp at h
      · split at h
        · cases h
          exact Stats.le_add _ _
        · split at h
          · simp at h
          · split at h
            · cases h
              exact Stats.Le.trans (Stats.Le.trans (Stats.le_add _ _) (Stats.le_add _ _))
                (Stats.le_add _ _)
            · cases h
              exact Stats.Le.trans (Stats.Le.trans (Stats.le_add _ _) (Stats.le_add _ _))
                (Stats.le_add _ _)

/-- After a successful implicit single fixed step the Newton-iteration and
derivative-evaluation counters are strictly positive. -/
theorem single_step_success_positive (I : Integrator) (c : Context) (t : ℚ)
    (I2 : Integrator) (hctx : I.context = some c)
    (hmin : ¬(t - c.time < workingMinimumStepSize I c.time))
    (h : IntegrateWithSingleFixedStepToTime I t = .ok (true, I2)) :
    0 < I2.stats.newton_iterations ∧ 0 < I2.stats.derivative_evaluations := by
  unfold IntegrateWithSingleFixedStepToTime at h
  dsimp only at h
  split at h
  · simp at h
  · split at h
    · simp at h
    · rename_i cm hcm
      have hcc : cm = c := by rw [hcm] at hctx; exact Option.some.injEq _ _ ▸ hctx
      subst hcc
      split at h
      · simp at h
      · split at h
        · simp at h
        · rename_i J jc hjac
          split at h
          · rename_i xh heq
            cases h
            have hpos := attemptStepDoubling_pos I.sys cm.time cm.state (t - cm.time)
              I.accuracy_in_use J xh heq
            constructor <;>
              simp [Stats.add, jacStatsDelta, attemptStatsDelta, stepTakenDelta,
                Stats.zero] <;> omega
          · simp at h

/-- C9: across both stepping operations every statistics counter is
monotonically non-decreasing; after a successful implicit step the
Newton-iteration and derivative-evaluation counters are strictly positive;
and the counters return to zero exactly on the explicit reset operation. -/
theorem statistics_counters_contract :
    (∀ (I : Integrator) (fuel : ℕ) (tFinal : ℚ) (I2 : Integrator),
      IntegrateWithMultipleStepsToTime I fuel tFinal = .ok I2 →
      Stats.Le I.stats I2.stats) ∧
    (∀ (I : Integrator) (t : ℚ) (b : Bool) (I2 : Integrator),
      IntegrateWithSingleFixedStepToTime I t = .ok (b, I2) →
      Stats.Le I.stats I2.stats) ∧
    (∀ (I : Integrator) (c : Context) (t : ℚ) (I2 : Integrator),
      I.context = some c →
      ¬(t - c.time < workingMinimumStepSize I c.time) →
      IntegrateWithSingleFixedStepToTime I t = .ok (true, I2) →
      0 < I2.stats.newton_iterations ∧ 0 < I2.stats.derivative_evaluations) ∧
    (∀ I : Integrator, (ResetStatistics I).stats = Stats.zero) :=
  ⟨fun I fuel tFinal I2 h => integrate_multi_stats_le I fuel tFinal I2 h,
   fun I t b I2 h => single_step_stats_le I t b I2 h,
   fun I c t I2 hctx hmin h => single_step_success_positive I c t I2 hctx hmin h,
   fun _ => rfl⟩

/-! ## Scheme-independence of the integration outcome -/

/-- Whenever two integrators share the system, the working tolerance, the
mode flags and (pointwise) the computed Jacobian values, their sub-steps
commit identical contexts and error estimates — the Jacobian scheme can
influence the outcome only through the Jacobian value. -/
theorem subStepLoop_jacobian_congr :
    ∀ (fuel : ℕ) (I1 I2 : Integrator) (c : Context) (wmin h : ℚ) (s1 s2 : Stats),
      I1.sys = I2.sys →
      I1.accuracy_in_use = I2.accuracy_in_use →
      I1.fixed_step_mode = I2.fixed_step_mode →
      I1.throw_on_minimum_step_size_violation = I2.throw_on_minimum_step_size_violation →
      (∀ t x, (calcJacobian I1 t x).map Prod.fst = (calcJacobian I2 t x).map Prod.fst) →
      SubRel (subStepLoop I1 c wmin fuel h s1) (subStepLoop I2 c wmin fuel h s2) := by
  intro fuel
  induction fuel with
  | zero =>
      intro I1 I2 c wmin h s1 s2 hsys hacc hfix hthrow hjac
      simp [subStepLoop, SubRel]
  | succ n ih =>
      intro I1 I2 c wmin h s1 s2 hsys hacc hfix hthrow hjac
      have hj := hjac c.time c.state
      rcases hj1 : calcJacobian I1 c.time c.state with e1 | ⟨J1, jc1⟩ <;>
        rcases hj2 : calcJacobian I2 c.time c.state with e2 | ⟨J2, jc2⟩ <;>
        rw [hj1, hj2] at hj <;> simp [Except.map] at hj
      · subst hj
        simp [subStepLoop, hj1, hj2, SubRel]
      · subst hj
        simp only [subStepLoop, hj1, hj2]
        rw [hsys, hacc, hfix, hthrow]
        rcases ha : (attemptStepDoubling I2.sys c.time c.state h I2.accuracy_in_use J1).result
          with - | xh
        · simp only [ha]
          by_cases h2 : h / 2 < wmin
          · simp only [if_pos h2]
            by_cases ht : I2.throw_on_minimum_step_size_violation = true
            · simp [ht, SubRel]
            · simp only [Bool.not_eq_true] at ht
              simp [ht, SubRel]
          · simp only [if_neg h2]
            exact ih I1 I2 c wmin (h / 2) _ _ hsys hacc hfix hthrow hjac
        · simp only [ha]
          by_cases hok : I2.fixed_step_mode = true ∨
              |(attemptStepDoubling I2.sys c.time c.state h I2.accuracy_in_use J1).errEst| /
                max |xh| 1 ≤ I2.accuracy_in_use
          · simp [hok, SubRel]
          · simp only [if_neg hok]
            by_cases h2 : h / 2 < wmin
            · simp only [if_pos h2]
              by_cases ht : I2.throw_on_minimum_step_size_violation = true
              · simp [ht, SubRel]
              · simp only [Bool.not_eq_true] at ht
                simp [ht, SubRel]
            · simp only [if_neg h2]
              exact ih I1 I2 c wmin (h / 2) _ _ hsys hacc hfix hthrow hjac

/-- The driver's multi-step loop is scheme-agnostic up to statistics: two
integrators sharing everything observable except the Jacobian scheme (and
computing equal Jacobian values) produce view-identical results. -/
theorem multiLoop_jacobian_congr (tFinal : ℚ) :
    ∀ (fuel : ℕ) (I1 I2 : Integrator) (c : Context) (cand : ℚ),
      I1.sys = I2.sys →
      I1.accuracy_in_use = I2.accuracy_in_use →
      I1.fixed_step_mode = I2.fixed_step_mode →
      I1.throw_on_minimum_step_size_violation = I2.throw_on_minimum_step_size_violation →
      I1.requested_minimum_step_size = I2.requested_minimum_step_size →
      I1.maximum_step_size = I2.maximum_step_size →
      I1.context = I2.context →
      I1.last_error_estimate = I2.last_error_estimate →
      I1.last_estimate_implicit_order = I2.last_estimate_implicit_order →
      (∀ t x, (calcJacobian I1 t x).map Prod.fst = (calcJacobian I2 t x).map Prod.fst) →
      ViewRel (multiLoop tFinal fuel I1 c cand) (multiLoop tFinal fuel I2 c cand) := by
  intro fuel
  induction fuel with
  | zero =>
      intro I1 I2 c cand hsys hacc hfix hthrow hreq hmax hctx hest hflag hjac
      simp [multiLoop, ViewRel]
  | succ n ih =>
      intro I1 I2 c cand hsys hacc hfix hthrow hreq hmax hctx hest hflag hjac
      simp only [multiLoop]
      by_cases htime : c.time = tFinal
      · simp only [if_pos htime]
        exact ⟨hctx, hest, hflag⟩
      · simp only [if_neg htime]
        have hwmin : workingMinimumStepSize I1 c.time = workingMinimumStepSize I2 c.time := by
          unfold workingMinimumStepSize
          rw [hreq]
        rw [hwmin, hmax]
        by_cases hrem : tFinal - c.time < workingMinimumStepSize I2 c.time
        · simp only [if_pos hrem]
          have he : explicitStepDoubling I1.sys c.time c.state (tFinal - c.time) =
              explicitStepDoubling I2.sys c.time c.state (tFinal - c.time) := by rw [hsys]
          rw [he]
          apply ih
          · exact hsys
          · exact hacc
          · exact hfix
          · exact hthrow
          · exact hreq
          · exact rfl
          · exact rfl
          · exact rfl
          · exact rfl
          · exact hjac
        · simp only [if_neg hrem]
          have hsub := subStepLoop_jacobian_congr n I1 I2 c (workingMinimumStepSize I2 c.time)
            (min (max (workingMinimumStepSize I2 c.time)
              (min cand (I2.maximum_step_size.getD cand))) (tFinal - c.time))
            I1.stats I2.stats hsys hacc hfix hthrow hjac
          rcases hs1 : subStepLoop I1 c (workingMinimumStepSize I2 c.time)
              n (min (max (workingMinimumStepSize I2 c.time)
                (min cand (I2.maximum_step_size.getD cand))) (tFinal - c.time)) I1.stats
            with e1 | ⟨c1m, est1, fl1, s1m⟩ <;>
            rcases hs2 : subStepLoop I2 c (workingMinimumStepSize I2 c.time)
                n (min (max (workingMinimumStepSize I2 c.time)
                  (min cand (I2.maximum_step_size.getD cand))) (tFinal - c.time)) I2.stats
              with e2 | ⟨c2m, est2, fl2, s2m⟩ <;>
            rw [hs1, hs2] at hsub <;> simp only [SubRel] at hsub
          · simp only [hs1, hs2]
            exact hsub
          · obtain ⟨hc, he, hf⟩ := hsub
            subst hc; subst he; subst hf
            simp only [hs1, hs2]
            apply ih
            · exact hsys
            · exact hacc
            · exact hfix
            · exact hthrow
            · exact hreq
            · exact rfl
            · exact rfl
            · exact rfl
            · exact rfl
            · exact hjac

/-- C8: on a system whose derivative is affine in the state (the stiff
spring-mass-damper family), all three Jacobian schemes compute the exact
Jacobian, so the whole integration has a view-identical outcome under every
scheme; consequently the final state agrees with the closed-form solution
to a given tolerance under one scheme exactly when it does under every
other. -/
theorem jacobian_scheme_equivalence (I : Integrator) (a : ℚ) (s : JacobianScheme)
    (fuel : ℕ) (tFinal : ℚ)
    (haff : AffineInState I.sys a) (hsc : I.scalar_type = ScalarType.double) :
    ViewRel (IntegrateWithMultipleStepsToTime { I with jacobian_scheme := s } fuel tFinal)
      (IntegrateWithMultipleStepsToTime I fuel tFinal) ∧
    (∀ (I1 I2 : Integrator) (c1 c2 : Context) (tol xtrue : ℚ),
      IntegrateWithMultipleStepsToTime { I with jacobian_scheme := s } fuel tFinal =
        .ok I1 →
      IntegrateWithMultipleStepsToTime I fuel tFinal = .ok I2 →
      I1.context = some c1 → I2.context = some c2 →
      (|c2.state - xtrue| ≤ tol ↔ |c1.state - xtrue| ≤ tol)) := by
  have hview : ViewRel
      (IntegrateWithMultipleStepsToTime { I with jacobian_scheme := s } fuel tFinal)
      (IntegrateWithMultipleStepsToTime I fuel tFinal) := by
    unfold IntegrateWithMultipleStepsToTime
    dsimp only
    by_cases hi : I.initialized = false
    · simp only [if_pos hi]
      exact rfl
    · simp only [if_neg hi]
      rcases hc : I.context with - | c
      · exact rfl
      · apply multiLoop_jacobian_congr
        · exact rfl
        · exact rfl
        · exact rfl
        · exact rfl
        · exact rfl
        · exact rfl
        · exact hc.symm
        · exact rfl
        · exact rfl
        · intro t x
          refine (calcJacobian_affine ?_ a ?_ ?_ t x).trans
            (calcJacobian_affine I a haff hsc t x).symm
          · exact haff
          · exact hsc
  refine ⟨hview, ?_⟩
  intro I1 I2 c1 c2 tol xtrue h1 h2 hc1 hc2
  rw [h1, h2] at hview
  obtain ⟨hctxeq, -, -⟩ : I1.context = I2.context ∧
      I1.last_error_estimate = I2.last_error_estimate ∧
      I1.last_estimate_implicit_order = I2.last_estimate_implicit_order := hview
  rw [hc1, hc2] at hctxeq
  cases hctxeq
  exact Iff.rfl

/-! ## Concrete evaluation lemmas for the witnesses -/

set_option maxHeartbeats 1000000 in
/-- At unit step from state two with a unit iteration matrix, the Newton
solve on the quadratic system is abandoned as divergent after three
iterations. -/
theorem divergeNewtonSolve :
    newtonSolve divergeSys 0 2 1 1 (1 / 10) = (none, 3) := by
  unfold newtonSolve
  rw [show kMaxNewtonIterations = 9 + 1 from rfl, newtonLoop_succ]
  norm_num [divergeSys, kNewtonConvergenceFraction]
  rw [show (9 : ℕ) = 8 + 1 from rfl, newtonLoop_succ]
  norm_num [divergeSys, kNewtonConvergenceFraction]
  rw [show (8 : ℕ) = 7 + 1 from rfl, newtonLoop_succ]
  norm_num [divergeSys, kNewtonConvergenceFraction]

/-- The corresponding unit-step implicit attempt fails. -/
theorem divergeAttempt :
    (attemptStepDoubling divergeSys 0 2 1 (1 / 10) 0).result = none := by
  unfold attemptStepDoubling
  dsimp only
  rw [show (1 : ℚ) - 1 * 0 = 1 from by norm_num, divergeNewtonSolve]

/-- Integrating the stationary integrator to its current time returns it
unchanged (the loop's exact-target exit fires immediately). -/
theorem statDegenerateRun :
    IntegrateWithMultipleStepsToTime statIntegrator 1 0 = .ok statIntegrator := by
  unfold IntegrateWithMultipleStepsToTime multiLoop
  norm_num [statIntegrator]

/-! ## Concrete witnesses -/

/-- Witness for C1, at the AutoDiff-instantiated integrator stepping to
time one. -/
theorem autodiff_jacobian_unsupported_witness :
    IntegrateWithSingleFixedStepToTime autoDiffIntegrator 1 =
      .error (.runtimeError autoDiffJacobianErrorMessage) ∧
    ∃ r, IntegrateWithSingleFixedStepToTime
      { autoDiffIntegrator with jacobian_scheme := JacobianScheme.forwardDifference } 1 =
      .ok r :=
  autodiff_jacobian_unsupported autoDiffIntegrator ⟨0, 0⟩ 1 rfl rfl rfl rfl rfl
    (by show ¬((1 : ℚ) - 0 < max 0 (epsQ * max 1 |(0 : ℚ)|)); norm_num [epsQ])

/-- Witness for C2, at the constant-derivative integrator: one normal
implicit step and one step below the working minimum, both with zero error
estimate. -/
theorem linear_solution_zero_error_estimate_witness :
    (∃ I2, IntegrateWithSingleFixedStepToTime linFixed 1 = .ok (true, I2) ∧
      I2.last_error_estimate = 0) ∧
    (∃ I2, IntegrateWithSingleFixedStepToTime linFixed (1 / 2 ^ 60) = .ok (true, I2) ∧
      I2.last_error_estimate = 0) :=
  ⟨linear_solution_zero_error_estimate linFixed ⟨0, 0⟩ 3 1
      ⟨fun _ _ => rfl, fun _ _ => rfl⟩ rfl rfl rfl
      (by show (0 : ℚ) ≤ 1 / 1000; norm_num) (by decide),
   linear_solution_zero_error_estimate linFixed ⟨0, 0⟩ 3 (1 / 2 ^ 60)
      ⟨fun _ _ => rfl, fun _ _ => rfl⟩ rfl rfl rfl
      (by show (0 : ℚ) ≤ 1 / 1000; norm_num) (by decide)⟩

/-- Witness for C3, at the diverging integrator whose Newton solve fails at
unit step size. -/
theorem fixed_step_failure_returns_false_witness :
    ∃ I2, IntegrateWithSingleFixedStepToTime divergeFixed 1 = .ok (false, I2) ∧
      I2.context = some ⟨0, 2⟩ ∧
      I2.stats.shrinkages_from_substep_failures =
        divergeFixed.stats.shrinkages_from_substep_failures ∧
      I2.stats.shrinkages_from_error_control =
        divergeFixed.stats.shrinkages_from_error_control :=
  fixed_step_failure_returns_false divergeFixed ⟨0, 2⟩ 1 rfl rfl rfl
    (by show ¬((1 : ℚ) - 0 < max 0 (epsQ * max 1 |(0 : ℚ)|)); norm_num [epsQ])
    0 1 rfl
    (by rw [show (1 : ℚ) - (⟨0, 2⟩ : Context).time = 1 from sub_zero 1]
        exact divergeAttempt)

/-- Witness for C4, at the stationary integrator integrated to its current
time. -/
theorem integrate_multi_reaches_target_exactly_witness :
    ∃ c2, statIntegrator.context = some c2 ∧ c2.time = 0 :=
  integrate_multi_reaches_target_exactly statIntegrator 1 0 statIntegrator
    statDegenerateRun

/-- Witness for C5: an unconfigured integrator errors on initialization; a
configured one with a too-loose target resolves a differing accuracy. -/
theorem initialize_contract_witness :
    Initialize unconfiguredIntegrator = .error (.logicError initializeConfigMessage) ∧
    ∃ I2, Initialize looseIntegrator = .ok I2 ∧ I2.accuracy_in_use ≠ 1 := by
  constructor
  · exact (initialize_contract unconfiguredIntegrator ⟨0, 0⟩ rfl).1 rfl rfl
  · obtain ⟨I2, hI2, hne⟩ := (initialize_contract looseIntegrator ⟨0, 0⟩ rfl).2 1 rfl
    exact ⟨I2, hI2, hne 1 rfl (by norm_num [kLoosestAccuracy])⟩

/-- Witness for C6, at the diverging integrator under the non-throwing
policy, with a working minimum of one and a failing unit-size attempt. -/
theorem minimum_step_violation_policy_witness :
    ∃ c2 est s2, subStepLoop divergeNoThrow ⟨0, 2⟩ 1 1 1 Stats.zero =
      .ok (c2, est, false, s2) ∧
      c2.time = (⟨0, 2⟩ : Context).time + 1 ∧ (⟨0, 2⟩ : Context).time < c2.time ∧
      Stats.zero.steps_taken < s2.steps_taken :=
  (minimum_step_violation_policy divergeNoThrow ⟨0, 2⟩ 1 1 Stats.zero 0
    (by norm_num) 0 1 rfl divergeAttempt (by norm_num)).2 rfl

/-- Witness for C7, at the stationary integrator integrated to its current
time from the zero state. -/
theorem stationary_zero_state_preserved_witness :
    ∃ c2, statIntegrator.context = some c2 ∧ c2.state = 0 :=
  stationary_zero_state_preserved statIntegrator 1 0 ⟨0, 0⟩ statIntegrator
    (fun _ _ => rfl) rfl rfl statDegenerateRun

/-- Witness for C8, at the constant-derivative integrator compared between
the CentralDifference and ForwardDifference schemes. -/
theorem jacobian_scheme_equivalence_witness :
    ViewRel
      (IntegrateWithMultipleStepsToTime
        { linIntegrator with jacobian_scheme := JacobianScheme.centralDifference } 5 1)
      (IntegrateWithMultipleStepsToTime linIntegrator 5 1) :=
  (jacobian_scheme_equivalence linIntegrator 0 JacobianScheme.centralDifference 5 1
    ⟨fun _ _ _ => by norm_num [linIntegrator, linSys], fun _ _ => rfl⟩ rfl).1

/-- Witness for C9: monotone statistics on a concrete run, strictly positive
counters after a concrete successful implicit step, and a zero reset. -/
theorem statistics_counters_contract_witness :
    Stats.Le statIntegrator.stats statIntegrator.stats ∧
    (∃ I2, IntegrateWithSingleFixedStepToTime statFixed 1 = .ok (true, I2) ∧
      0 < I2.stats.newton_iterations ∧ 0 < I2.stats.derivative_evaluations) ∧
    (ResetStatistics statIntegrator).stats = Stats.zero := by
  refine ⟨statistics_counters_contract.1 statIntegrator 1 0 statIntegrator
    statDegenerateRun, ?_, statistics_counters_contract.2.2.2 statIntegrator⟩
  obtain ⟨I2, hrun, -⟩ := single_fixed_step_const_ok statFixed ⟨0, 0⟩ 0 1
    ⟨fun _ _ => rfl, fun _ _ => rfl⟩ rfl rfl rfl
    (by show (0 : ℚ) ≤ 1 / 1000; norm_num) (by decide)
  exact ⟨I2, hrun, statistics_counters_contract.2.2.1 statFixed ⟨0, 0⟩ 1 I2 rfl
    (by show ¬((1 : ℚ) - 0 < max 0 (epsQ * max 1 |(0 : ℚ)|)); norm_num [epsQ]) hrun⟩

end ImplicitEuler
